import Mathlib

/-
  Verification development for the bookmarks-alive-exporter repository.

  The program is a Prometheus exporter: on each scrape of /metrics it reads
  bookmark URLs from a SQLite store, probes each URL with a pool of 20
  goroutines, funnels the results through a process-global buffered channel
  `metricsChan`, drains that channel into the `urlStatus` gauge vector, and
  serves the exposition text.

  The embedding below follows the context-based revision of main.go
  (src/unnamed/part_000).  Machine floats carry only small integral status
  codes (0 or an HTTP status), so statuses are embedded as Nat.  The network
  is external: each URL's probe outcome is an oracle value of type
  ProbeOutcome.  The concurrent pipeline (collectMetrics + urlChecker) is
  embedded as a small-step transition relation on RunState; goroutine workers
  are anonymous and symmetric, so the pool is represented by the multiset of
  worker occupations (idle count, urls being probed, results awaiting send,
  exited count).
-/

namespace BookmarksAlive

/-- Pool size: `workerCount := 20` in collectMetrics (a fixed local, not a flag). -/
def workerCount : Nat := 20

/-- Capacity of the per-run URL queue: `make(chan string, 100)`. -/
def urlChanCap : Nat := 100

/-- Capacity of the global result channel: `make(chan metricUpdate, 1000)` in main. -/
def metricsChanCap : Nat := 1000

/-- Per-probe HTTP client timeout: `Timeout: 5 * time.Second` in checkURL (hard-coded). -/
def probeTimeoutSeconds : Nat := 5

/-- Per-scrape deadline: `context.WithTimeout(r.Context(), 30*time.Second)` in metricsHandler. -/
def scrapeTimeoutSeconds : Nat := 30

/-- The command-line flags registered in main, with their default values:
`-db`, `-port` and `-user-agent`.  These are the only process configuration
options. -/
def defaultFlags : List (String × String) :=
  [("db", "./bookmarks.db"), ("port", "8000"),
   ("user-agent", "bookmarks-alive-exporter/1.0")]

/-- Outcome of the external HTTP world for one probe attempt:
`reqError` - http.NewRequestWithContext failed (e.g. malformed URL);
`doError`  - client.Do failed (network error, timeout, cancellation, non-response);
`response c` - a response arrived with status code c. -/
inductive ProbeOutcome where
  | reqError
  | doError
  | response (code : Nat)
  deriving DecidableEq

/-- checkURL: builds the GET request, runs it with the 5s client timeout, and
returns the numeric status; every failure path returns the sentinel 0.
(The Go function returns float64; only integral codes 0..999 ever occur, so
the embedding uses Nat.) -/
def checkURL : ProbeOutcome → Nat
  | .reqError => 0
  | .doError => 0
  | .response c => c

/-- The `metricUpdate` struct sent over metricsChan. -/
structure metricUpdate where
  url : String
  status : Nat
  deriving DecidableEq

/-- The gauge vector `urlStatus`, keyed by the `url` label: an association
list with one entry per distinct label value, in insertion order (as a
prometheus GaugeVec enumerates its children). -/
abbrev Gauge := List (String × Nat)

/-- `urlStatus.WithLabelValues(url).Set(status)`: upsert into the gauge
vector; an existing series keeps its position, a new label value appends a
fresh series. -/
def setVal (g : Gauge) (u : String) (v : Nat) : Gauge :=
  match g with
  | [] => [(u, v)]
  | (u', v') :: rest => if u' = u then (u', v) :: rest else (u', v') :: setVal rest u v

/-- Reading one series of the gauge vector by its url label. -/
def lookupG (u : String) : Gauge → Option Nat
  | [] => none
  | (u', v) :: rest => if u' = u then some v else lookupG u rest

/-- Applying a sequence of buffered metricUpdates to the gauge vector, in
channel (FIFO) order. -/
def applyUpdates (g : Gauge) (l : List metricUpdate) : Gauge :=
  l.foldl (fun g m => setVal g m.url m.status) g

/-- One line of the exposition text for one gauge series. -/
def renderLine (u : String) (v : Nat) : String :=
  "bookmarks_alive_status\x7burl=\"" ++ u ++ "\"\x7d " ++ toString v

/-- The exposition body served by promhttp: one line per gauge series. -/
def renderGauge (g : Gauge) : List String :=
  g.map (fun p => renderLine p.1 p.2)

/-- The HTTP response of one scrape of /metrics: either the exposition body
or the `http.Error(w, "Internal Server Error", 500)` response. -/
inductive Response where
  | ok (body : List String)
  | serverError
  deriving DecidableEq

/-- updateMetrics: drains metricsChan into the gauge vector without blocking.
Each loop iteration is a select over ctx.Done, a channel receive, and a
default clause.  While the context is live it receives until the buffer is
momentarily empty (default fires); once the context is cancelled the
ctx.Done case is always ready and the select may stop after any number k of
receives, leaving the rest buffered.  Returns the new gauge and the residual
buffer. -/
def updateMetrics (cancelled : Bool) (k : Nat) (g : Gauge) (buf : List metricUpdate) :
    Gauge × List metricUpdate :=
  if cancelled then (applyUpdates g (buf.take k), buf.drop k)
  else (applyUpdates g buf, [])

/-- metricsHandler: one scrape.  `queryOk` records whether
`db.QueryContext(ctx, "SELECT url FROM bookmarks")` in collectMetrics
succeeded: on failure the handler answers 500 and touches nothing; otherwise
it runs updateMetrics on the buffer `buf` left in metricsChan by the run
(with `cancelled`/`k` as above) and serves the exposition of the resulting
gauge.  Returns the response together with the gauge after the scrape. -/
def metricsHandler (g : Gauge) (queryOk : Bool) (buf : List metricUpdate)
    (cancelled : Bool) (k : Nat) : Response × Gauge :=
  if queryOk then
    let g' := (updateMetrics cancelled k g buf).1
    (.ok (renderGauge g'), g')
  else (.serverError, g)

/-- State of one collection run (collectMetrics + its urlChecker workers).
`pending` - rows of the bookmarks query not yet consumed by the feeder;
`urlChan` - contents of the per-run buffered URL queue (capacity 100);
`urlChanClosed` - whether the feeder has executed `close(urlChan)`;
`idleW` - workers blocked at the receive select;
`probingW` - one entry per worker currently inside checkURL (the url);
`sendingW` - one entry per worker at the send select (its metricUpdate);
`exitedW` - workers that returned (wg.Done);
`metricsChan` - contents of the global result channel (capacity 1000);
`cancelled` - whether the scrape context's deadline has fired. -/
structure RunState where
  pending : List String
  urlChan : List String
  urlChanClosed : Bool
  idleW : Nat
  probingW : List String
  sendingW : List metricUpdate
  exitedW : Nat
  metricsChan : List metricUpdate
  cancelled : Bool
  deriving DecidableEq

/-- State at the start of collectMetrics, after the bookmarks query returned
rows `urls`: fresh URL queue, 20 idle workers just spawned, and whatever
`buf0` an earlier run left in the process-global metricsChan. -/
def initState (urls : List String) (buf0 : List metricUpdate) : RunState :=
  { pending := urls, urlChan := [], urlChanClosed := false,
    idleW := workerCount, probingW := [], sendingW := [], exitedW := 0,
    metricsChan := buf0, cancelled := false }

/-- Small-step semantics of one collection run, parameterised by the network
oracle `env`.  Each constructor is one scheduler-visible action of the Go
code; Go's select picks any ready case, so a step needs only its own case to
be ready. -/
inductive Step (env : String → ProbeOutcome) : RunState → RunState → Prop where
  /-- The scrape context's 30s deadline fires. -/
  | cancel {s : RunState} :
      s.cancelled = false →
      Step env s { s with cancelled := true }
  /-- The feeder goroutine scans one row and sends it into urlChan
  (needs buffer space; `urlChan <- url`). -/
  | feed {s : RunState} (u : String) (rest : List String) :
      s.pending = u :: rest →
      s.urlChanClosed = false →
      s.urlChan.length < urlChanCap →
      Step env s { s with pending := rest, urlChan := s.urlChan ++ [u] }
  /-- The feeder exhausts the rows and its deferred close(urlChan) runs. -/
  | feedCloseNat {s : RunState} :
      s.pending = [] →
      s.urlChanClosed = false →
      Step env s { s with urlChanClosed := true }
  /-- The feeder observes ctx.Done, returns, and its deferred close(urlChan)
  runs; the unread rows are abandoned. -/
  | feedCloseCancel {s : RunState} :
      s.cancelled = true →
      s.urlChanClosed = false →
      Step env s { s with pending := [], urlChanClosed := true }
  /-- A worker at the receive select gets a url from urlChan. -/
  | take {s : RunState} (u : String) (rest : List String) :
      0 < s.idleW →
      s.urlChan = u :: rest →
      Step env s { s with idleW := s.idleW - 1, probingW := u :: s.probingW,
                          urlChan := rest }
  /-- A worker's receive sees urlChan closed and drained (ok = false): it
  returns. -/
  | exitClosed {s : RunState} :
      0 < s.idleW →
      s.urlChanClosed = true →
      s.urlChan = [] →
      Step env s { s with idleW := s.idleW - 1, exitedW := s.exitedW + 1 }
  /-- A worker's receive select takes the ctx.Done case: it returns. -/
  | exitCancel {s : RunState} :
      0 < s.idleW →
      s.cancelled = true →
      Step env s { s with idleW := s.idleW - 1, exitedW := s.exitedW + 1 }
  /-- checkURL returns for one of the urls being probed; the worker moves to
  the send select with the ordinary result checkURL(outcome). -/
  | probeDone {s : RunState} (l1 l2 : List String) (u : String) :
      s.probingW = l1 ++ u :: l2 →
      Step env s { s with probingW := l1 ++ l2,
                          sendingW := ⟨u, checkURL (env u)⟩ :: s.sendingW }
  /-- The cancelled context aborts the in-flight HTTP call: client.Do errors
  and checkURL returns the sentinel 0. -/
  | probeAborted {s : RunState} (l1 l2 : List String) (u : String) :
      s.probingW = l1 ++ u :: l2 →
      s.cancelled = true →
      Step env s { s with probingW := l1 ++ l2,
                          sendingW := ⟨u, 0⟩ :: s.sendingW }
  /-- A worker's send select delivers its result into metricsChan
  (needs buffer space). -/
  | send {s : RunState} (l1 l2 : List metricUpdate) (m : metricUpdate) :
      s.sendingW = l1 ++ m :: l2 →
      s.metricsChan.length < metricsChanCap →
      Step env s { s with sendingW := l1 ++ l2, idleW := s.idleW + 1,
                          metricsChan := s.metricsChan ++ [m] }
  /-- A worker's send select takes the ctx.Done case: the result is dropped
  and the worker returns. -/
  | sendCancel {s : RunState} (l1 l2 : List metricUpdate) (m : metricUpdate) :
      s.sendingW = l1 ++ m :: l2 →
      s.cancelled = true →
      Step env s { s with sendingW := l1 ++ l2, exitedW := s.exitedW + 1 }

/-- Reachability of run states by any interleaving of pipeline actions. -/
def Reach (env : String → ProbeOutcome) : RunState → RunState → Prop :=
  Relation.ReflTransGen (Step env)

/-- wg.Wait() in collectMetrics has returned: all 20 workers called wg.Done. -/
def runDone (s : RunState) : Prop :=
  s.exitedW = workerCount

/-- Occurrence count of a url in a list of urls. -/
def cnt (u : String) : List String → Nat
  | [] => 0
  | x :: xs => (if x = u then 1 else 0) + cnt u xs

/-- Occurrence count of results carrying a given url. -/
def cntM (u : String) : List metricUpdate → Nat
  | [] => 0
  | m :: ms => (if m.url = u then 1 else 0) + cntM u ms

/-- Total occurrences of a url across the whole pipeline of a run. -/
def inFlightCnt (u : String) (s : RunState) : Nat :=
  cnt u s.pending + cnt u s.urlChan + cnt u s.probingW +
    cntM u s.sendingW + cntM u s.metricsChan

/-- Total number of workers across all occupations. -/
def totalW (s : RunState) : Nat :=
  s.idleW + s.probingW.length + s.sendingW.length + s.exitedW

/-! ### Counting lemmas -/

lemma cnt_append (u : String) (a b : List String) :
    cnt u (a ++ b) = cnt u a + cnt u b := by
  induction a with
  | nil => simp [cnt]
  | cons x xs ih => simp [cnt, ih]; omega

lemma cntM_append (u : String) (a b : List metricUpdate) :
    cntM u (a ++ b) = cntM u a + cntM u b := by
  induction a with
  | nil => simp [cntM]
  | cons x xs ih => simp [cntM, ih]; omega

lemma cnt_pos_of_mem {u : String} {l : List String} (h : u ∈ l) : 0 < cnt u l := by
  induction l with
  | nil => cases h
  | cons x xs ih =>
    rcases List.mem_cons.mp h with h1 | h2
    · subst h1; simp [cnt]
    · have := ih h2; simp [cnt]; omega

lemma cntM_pos_mem {u : String} {l : List metricUpdate} (h : 0 < cntM u l) :
    ∃ m ∈ l, m.url = u := by
  induction l with
  | nil => simp [cntM] at h
  | cons x xs ih =>
    by_cases hx : x.url = u
    · exact ⟨x, List.mem_cons_self x xs, hx⟩
    · simp [cntM, hx] at h
      obtain ⟨m, hm, hmu⟩ := ih h
      exact ⟨m, List.mem_cons_of_mem x hm, hmu⟩

lemma cntM_eq_zero {u : String} {l : List metricUpdate} (h : cntM u l = 0) :
    ∀ m ∈ l, m.url ≠ u := by
  intro m hm
  induction l with
  | nil => cases hm
  | cons x xs ih =>
    by_cases hx : x.url = u
    · simp [cntM, hx] at h
    · simp [cntM, hx] at h
      rcases List.mem_cons.mp hm with h1 | h2
      · subst h1; exact hx
      · exact ih h h2

/-! ### Gauge vector lemmas -/

lemma lookupG_setVal_same (g : Gauge) (u : String) (v : Nat) :
    lookupG u (setVal g u v) = some v := by
  induction g with
  | nil => simp [setVal, lookupG]
  | cons p rest ih =>
    by_cases hp : p.1 = u
    · simp [setVal, hp, lookupG]
    · simp [setVal, hp, lookupG, ih]

lemma lookupG_setVal_other {u w : String} (g : Gauge) (v : Nat) (h : w ≠ u) :
    lookupG u (setVal g w v) = lookupG u g := by
  induction g with
  | nil => simp [setVal, lookupG, h]
  | cons p rest ih =>
    by_cases hp : p.1 = w
    · simp [setVal, hp, lookupG, h]
    · simp [setVal, hp, lookupG, ih]

lemma lookupG_setVal_isSome {u : String} (g : Gauge) (w : String) (v : Nat)
    (h : (lookupG u g).isSome = true) :
    (lookupG u (setVal g w v)).isSome = true := by
  by_cases hw : w = u
  · subst hw; simp [lookupG_setVal_same]
  · rwa [lookupG_setVal_other g v hw]

lemma applyUpdates_cons (g : Gauge) (m : metricUpdate) (l : List metricUpdate) :
    applyUpdates g (m :: l) = applyUpdates (setVal g m.url m.status) l := rfl

lemma applyUpdates_append (g : Gauge) (a b : List metricUpdate) :
    applyUpdates g (a ++ b) = applyUpdates (applyUpdates g a) b := by
  simp [applyUpdates, List.foldl_append]

lemma lookupG_applyUpdates_absent {u : String} (g : Gauge) {l : List metricUpdate}
    (h : ∀ m ∈ l, m.url ≠ u) :
    lookupG u (applyUpdates g l) = lookupG u g := by
  induction l generalizing g with
  | nil => rfl
  | cons m ms ih =>
    rw [applyUpdates_cons]
    rw [ih (setVal g m.url m.status) (fun m' hm' => h m' (List.mem_cons_of_mem m hm'))]
    exact lookupG_setVal_other g m.status (h m (List.mem_cons_self m ms))

lemma lookupG_applyUpdates_isSome {u : String} (g : Gauge) (l : List metricUpdate)
    (h : (lookupG u g).isSome = true) :
    (lookupG u (applyUpdates g l)).isSome = true := by
  induction l generalizing g with
  | nil => exact h
  | cons m ms ih =>
    rw [applyUpdates_cons]
    exact ih _ (lookupG_setVal_isSome g m.url m.status h)

lemma lookupG_applyUpdates_last (g : Gauge) (l : List metricUpdate) (u : String) (v : Nat) :
    lookupG u (applyUpdates g (l ++ [⟨u, v⟩])) = some v := by
  rw [applyUpdates_append]
  exact lookupG_setVal_same _ u v

/-- If the buffer holds at least one result for u and all its results for u
carry the value v, then after the drain the series for u holds v. -/
lemma lookupG_applyUpdates_uniform {u : String} {v : Nat} (g : Gauge)
    {l : List metricUpdate} (hpos : 0 < cntM u l)
    (hval : ∀ m ∈ l, m.url = u → m.status = v) :
    lookupG u (applyUpdates g l) = some v := by
  induction l generalizing g with
  | nil => simp [cntM] at hpos
  | cons m ms ih =>
    rw [applyUpdates_cons]
    by_cases hms : 0 < cntM u ms
    · exact ih _ hms (fun m' hm' => hval m' (List.mem_cons_of_mem m hm'))
    · have hz : cntM u ms = 0 := by omega
      have hmu : m.url = u := by
        by_contra hc
        simp [cntM, hc, hz] at hpos
      have habs : ∀ m' ∈ ms, m'.url ≠ u := cntM_eq_zero hz
      rw [lookupG_applyUpdates_absent _ habs, hmu, lookupG_setVal_same]
      rw [hval m (List.mem_cons_self m ms) hmu]

lemma mem_of_lookupG {u : String} {v : Nat} : ∀ {g : Gauge},
    lookupG u g = some v → (u, v) ∈ g := by
  intro g
  induction g with
  | nil => intro h; simp [lookupG] at h
  | cons p rest ih =>
    intro h
    by_cases hp : p.1 = u
    · simp [lookupG, hp] at h
      have hpv : p = (u, v) := by
        cases p
        simp_all
      rw [hpv]
      exact List.mem_cons_self _ _
    · simp [lookupG, hp] at h
      exact List.mem_cons_of_mem p (ih h)

lemma renderLine_mem_of_lookupG {u : String} {v : Nat} {g : Gauge}
    (h : lookupG u g = some v) : renderLine u v ∈ renderGauge g := by
  have hm := mem_of_lookupG h
  exact List.mem_map_of_mem (fun p => renderLine p.1 p.2) hm

/-- Keys of the gauge vector. -/
def keysG : Gauge → List String
  | [] => []
  | p :: rest => p.1 :: keysG rest

lemma mem_keysG_setVal {w u : String} {v : Nat} : ∀ {g : Gauge},
    w ∈ keysG (setVal g u v) → w ∈ keysG g ∨ w = u := by
  intro g
  induction g with
  | nil => intro h; simp [setVal, keysG] at h; exact Or.inr h
  | cons p rest ih =>
    intro h
    by_cases hp : p.1 = u
    · simp [setVal, hp, keysG] at h
      simp [keysG]
      tauto
    · simp [setVal, hp, keysG] at h
      simp [keysG]
      rcases h with h1 | h2
      · tauto
      · rcases ih h2 with h3 | h4 <;> tauto

lemma nodup_keysG_setVal : ∀ {g : Gauge} (u : String) (v : Nat),
    (keysG g).Nodup → (keysG (setVal g u v)).Nodup := by
  intro g
  induction g with
  | nil => intro u v _; simp [setVal, keysG]
  | cons p rest ih =>
    intro u v h
    have h' : p.1 ∉ keysG rest ∧ (keysG rest).Nodup :=
      List.nodup_cons.mp (show (p.1 :: keysG rest).Nodup from h)
    by_cases hp : p.1 = u
    · have e : setVal (p :: rest) u v = (p.1, v) :: rest := by simp [setVal, hp]
      rw [e]
      exact List.nodup_cons.mpr ⟨h'.1, h'.2⟩
    · have e : setVal (p :: rest) u v = p :: setVal rest u v := by simp [setVal, hp]
      rw [e]
      show (p.1 :: keysG (setVal rest u v)).Nodup
      refine List.nodup_cons.mpr ⟨?_, ih u v h'.2⟩
      intro hmem
      rcases mem_keysG_setVal hmem with h1 | h2
      · exact h'.1 h1
      · exact hp h2

lemma nodup_keysG_applyUpdates {g : Gauge} (l : List metricUpdate)
    (h : (keysG g).Nodup) : (keysG (applyUpdates g l)).Nodup := by
  induction l generalizing g with
  | nil => exact h
  | cons m ms ih =>
    rw [applyUpdates_cons]
    exact ih (nodup_keysG_setVal m.url m.status h)

/-! ### Invariants of the collection-run transition system -/

/-- The context, once cancelled, stays cancelled. -/
lemma cancelled_mono {env : String → ProbeOutcome} {s s' : RunState}
    (h : Step env s s') (hc : s.cancelled = true) : s'.cancelled = true := by
  cases h <;> first | rfl | exact hc

lemma cancelled_back {env : String → ProbeOutcome} {s s' : RunState}
    (h : Step env s s') (hc : s'.cancelled = false) : s.cancelled = false := by
  by_contra hb
  have : s.cancelled = true := by
    cases hx : s.cancelled
    · exact absurd hx hb
    · rfl
  rw [cancelled_mono h this] at hc
  cases hc

/-- No step creates or destroys a worker. -/
lemma totalW_step {env : String → ProbeOutcome} {s s' : RunState}
    (h : Step env s s') : totalW s' = totalW s := by
  cases h with
  | cancel h1 => rfl
  | feed u rest h1 h2 h3 => rfl
  | feedCloseNat h1 h2 => rfl
  | feedCloseCancel h1 h2 => rfl
  | take u rest h1 h2 =>
    simp [totalW]
    omega
  | exitClosed h1 h2 h3 =>
    simp [totalW]
    omega
  | exitCancel h1 h2 =>
    simp [totalW]
    omega
  | probeDone l1 l2 u h1 =>
    simp [totalW, h1]
    omega
  | probeAborted l1 l2 u h1 h2 =>
    simp [totalW, h1]
    omega
  | send l1 l2 m h1 h2 =>
    simp [totalW, h1]
    omega
  | sendCancel l1 l2 m h1 h2 =>
    simp [totalW, h1]
    omega

/-- No step removes anything already buffered in the global result channel:
metricsChan only grows, by appending. -/
lemma metricsChan_step {env : String → ProbeOutcome} {s s' : RunState}
    (h : Step env s s') : ∃ r, s'.metricsChan = s.metricsChan ++ r := by
  cases h with
  | send l1 l2 m h1 h2 => exact ⟨[m], rfl⟩
  | cancel h1 => exact ⟨[], by simp⟩
  | feed u rest h1 h2 h3 => exact ⟨[], by simp⟩
  | feedCloseNat h1 h2 => exact ⟨[], by simp⟩
  | feedCloseCancel h1 h2 => exact ⟨[], by simp⟩
  | take u rest h1 h2 => exact ⟨[], by simp⟩
  | exitClosed h1 h2 h3 => exact ⟨[], by simp⟩
  | exitCancel h1 h2 => exact ⟨[], by simp⟩
  | probeDone l1 l2 u h1 => exact ⟨[], by simp⟩
  | probeAborted l1 l2 u h1 h2 => exact ⟨[], by simp⟩
  | sendCancel l1 l2 m h1 h2 => exact ⟨[], by simp⟩

/-- Per-url conservation bound: a run never produces more occurrences of a
url anywhere in its pipeline than the backing store handed it. -/
def InvCnt (urls : List String) (s : RunState) : Prop :=
  ∀ u, inFlightCnt u s ≤ cnt u urls

/-- Facts that hold as long as the run has not been cancelled: nothing has
been dropped (counts are exact), every produced result carries the value
checkURL of its url's network outcome, the queue is closed only after the
rows were exhausted, and a worker has exited only if the queue was closed
and drained. -/
def InvNC (env : String → ProbeOutcome) (urls : List String) (s : RunState) : Prop :=
  (∀ u, cnt u urls ≤ inFlightCnt u s) ∧
  (∀ m ∈ s.sendingW, m.status = checkURL (env m.url)) ∧
  (∀ m ∈ s.metricsChan, m.status = checkURL (env m.url)) ∧
  (s.urlChanClosed = true → s.pending = []) ∧
  (0 < s.exitedW → s.urlChanClosed = true ∧ s.urlChan = [])

/-- Full invariant of a run started on an empty result buffer. -/
def Inv (env : String → ProbeOutcome) (urls : List String) (s : RunState) : Prop :=
  totalW s = workerCount ∧ InvCnt urls s ∧ (s.cancelled = false → InvNC env urls s)

lemma invCnt_step {env : String → ProbeOutcome} {urls : List String} {s s' : RunState}
    (h : Step env s s') (hi : InvCnt urls s) : InvCnt urls s' := by
  intro u
  have H := hi u
  cases h with
  | cancel h1 => exact H
  | feed u0 rest h1 h2 h3 =>
    simp [inFlightCnt, h1, cnt, cnt_append] at H ⊢
    omega
  | feedCloseNat h1 h2 => exact H
  | feedCloseCancel h1 h2 =>
    simp [inFlightCnt, cnt] at H ⊢
    omega
  | take u0 rest h1 h2 =>
    simp [inFlightCnt, h2, cnt] at H ⊢
    omega
  | exitClosed h1 h2 h3 => exact H
  | exitCancel h1 h2 => exact H
  | probeDone l1 l2 u0 h1 =>
    simp [inFlightCnt, h1, cnt, cntM, cnt_append, cntM_append] at H ⊢
    omega
  | probeAborted l1 l2 u0 h1 h2 =>
    simp [inFlightCnt, h1, cnt, cntM, cnt_append, cntM_append] at H ⊢
    omega
  | send l1 l2 m h1 h2 =>
    simp [inFlightCnt, h1, cntM, cntM_append] at H ⊢
    omega
  | sendCancel l1 l2 m h1 h2 =>
    simp [inFlightCnt, h1, cntM, cntM_append] at H ⊢
    omega

lemma invNC_step {env : String → ProbeOutcome} {urls : List String} {s s' : RunState}
    (h : Step env s s') (hc' : s'.cancelled = false) (hi : InvNC env urls s) :
    InvNC env urls s' := by
  obtain ⟨hge, hsend, hchan, hclosed, hexit⟩ := hi
  cases h with
  | cancel h1 => simp at hc'
  | feed u0 rest h1 h2 h3 =>
    refine ⟨?_, hsend, hchan, ?_, ?_⟩
    · intro u
      have H := hge u
      simp [inFlightCnt, h1, cnt, cnt_append] at H ⊢
      omega
    · intro hcl
      simp at hcl
      rw [hcl] at h2
      cases h2
    · intro hex
      have := (hexit (by simpa using hex)).1
      rw [this] at h2
      cases h2
  | feedCloseNat h1 h2 =>
    refine ⟨hge, hsend, hchan, fun _ => by simpa using h1, ?_⟩
    · intro hex
      have := (hexit (by simpa using hex)).1
      rw [this] at h2
      cases h2
  | feedCloseCancel h1 h2 =>
    have hc2 : s.cancelled = false := hc'
    rw [h1] at hc2
    cases hc2
  | take u0 rest h1 h2 =>
    refine ⟨?_, hsend, hchan, hclosed, ?_⟩
    · intro u
      have H := hge u
      simp [inFlightCnt, h2, cnt] at H ⊢
      omega
    · intro hex
      have := (hexit (by simpa using hex)).2
      rw [this] at h2
      cases h2
  | exitClosed h1 h2 h3 =>
    exact ⟨hge, hsend, hchan, hclosed, fun _ => ⟨h2, h3⟩⟩
  | exitCancel h1 h2 =>
    have hc2 : s.cancelled = false := hc'
    rw [h2] at hc2
    cases hc2
  | probeDone l1 l2 u0 h1 =>
    refine ⟨?_, ?_, hchan, hclosed, hexit⟩
    · intro u
      have H := hge u
      simp [inFlightCnt, h1, cnt, cntM, cnt_append, cntM_append] at H ⊢
      omega
    · intro m hm
      rcases List.mem_cons.mp hm with hm1 | hm2
      · rw [hm1]
      · exact hsend m hm2
  | probeAborted l1 l2 u0 h1 h2 =>
    have hc2 : s.cancelled = false := hc'
    rw [h2] at hc2
    cases hc2
  | send l1 l2 m h1 h2 =>
    refine ⟨?_, ?_, ?_, hclosed, hexit⟩
    · intro u
      have H := hge u
      simp [inFlightCnt, h1, cntM, cntM_append] at H ⊢
      omega
    · intro m' hm'
      exact hsend m' (by rw [h1]; simp at hm' ⊢; tauto)
    · intro m' hm'
      simp at hm'
      rcases hm' with hm1 | hm2
      · exact hchan m' hm1
      · rw [hm2]
        exact hsend m (by rw [h1]; simp)
  | sendCancel l1 l2 m h1 h2 =>
    have hc2 : s.cancelled = false := hc'
    rw [h2] at hc2
    cases hc2

lemma inv_step {env : String → ProbeOutcome} {urls : List String} {s s' : RunState}
    (h : Step env s s') (hi : Inv env urls s) : Inv env urls s' := by
  obtain ⟨ht, hcnt, hnc⟩ := hi
  refine ⟨by rw [totalW_step h, ht], invCnt_step h hcnt, ?_⟩
  intro hc'
  exact invNC_step h hc' (hnc (cancelled_back h hc'))

lemma inv_init (env : String → ProbeOutcome) (urls : List String) :
    Inv env urls (initState urls []) := by
  refine ⟨by simp [totalW, initState], ?_, ?_⟩
  · intro u
    simp [inFlightCnt, initState, cnt, cntM]
  · intro _
    refine ⟨?_, by simp [initState], by simp [initState], by simp [initState], ?_⟩
    · intro u
      simp [inFlightCnt, initState, cnt, cntM]
    · intro hex
      simp [initState] at hex

lemma inv_reach {env : String → ProbeOutcome} {urls : List String} {s : RunState}
    (h : Reach env (initState urls []) s) : Inv env urls s := by
  induction h with
  | refl => exact inv_init env urls
  | tail hsteps hstep ih => exact inv_step hstep ih

lemma totalW_reach {env : String → ProbeOutcome} {urls : List String}
    {buf0 : List metricUpdate} {s : RunState}
    (h : Reach env (initState urls buf0) s) : totalW s = workerCount := by
  induction h with
  | refl => simp [totalW, initState]
  | tail hsteps hstep ih => rw [totalW_step hstep, ih]

lemma metricsChan_reach {env : String → ProbeOutcome} {urls : List String}
    {buf0 : List metricUpdate} {s : RunState}
    (h : Reach env (initState urls buf0) s) :
    ∃ rest, s.metricsChan = buf0 ++ rest := by
  induction h with
  | refl => exact ⟨[], by simp [initState]⟩
  | tail hsteps hstep ih =>
    obtain ⟨rest, hrest⟩ := ih
    obtain ⟨r, hr⟩ := metricsChan_step hstep
    exact ⟨rest ++ r, by rw [hr, hrest, List.append_assoc]⟩

/-- When wg.Wait has returned, every worker really has finished: none is
idle, probing or holding an unsent result. -/
lemma runDone_components {env : String → ProbeOutcome} {urls : List String}
    {buf0 : List metricUpdate} {s : RunState}
    (h : Reach env (initState urls buf0) s) (hd : runDone s) :
    s.idleW = 0 ∧ s.probingW = [] ∧ s.sendingW = [] := by
  have ht := totalW_reach h
  unfold runDone at hd
  unfold totalW at ht
  refine ⟨by omega, ?_, ?_⟩
  · have : s.probingW.length = 0 := by omega
    exact List.length_eq_zero.mp this
  · have : s.sendingW.length = 0 := by omega
    exact List.length_eq_zero.mp this

/-- In a completed, never-cancelled run every stored url's result (and
nothing else) sits in the result channel, each carrying checkURL of its
network outcome. -/
lemma completed_run_chan {env : String → ProbeOutcome} {urls : List String} {s : RunState}
    (h : Reach env (initState urls []) s) (hd : runDone s) (hnc : s.cancelled = false) :
    (∀ u, cntM u s.metricsChan = cnt u urls) ∧
    (∀ m ∈ s.metricsChan, m.status = checkURL (env m.url)) := by
  obtain ⟨hidle, hprob, hsend⟩ := runDone_components h hd
  obtain ⟨ht, hcnt, hncInv⟩ := inv_reach h
  obtain ⟨hge, _, hchan, hclosed, hexit⟩ := hncInv hnc
  have hex : 0 < s.exitedW := by
    unfold runDone at hd
    rw [hd]
    simp [workerCount]
  obtain ⟨hcl, hch⟩ := hexit hex
  have hpend := hclosed hcl
  refine ⟨?_, hchan⟩
  intro u
  have h1 := hcnt u
  have h2 := hge u
  unfold inFlightCnt at h1 h2
  rw [hpend, hch, hprob, hsend] at h1 h2
  simp [cnt, cntM] at h1 h2
  omega

/-- From any state with the URL queue closed and drained, the n idle workers
can all exit. -/
lemma reach_exit_all_closed (env : String → ProbeOutcome) :
    ∀ (n : Nat) (s : RunState), s.urlChanClosed = true → s.urlChan = [] →
      s.idleW = n → Reach env s { s with idleW := 0, exitedW := s.exitedW + n } := by
  intro n
  induction n with
  | zero =>
    intro s hcl hch hn
    have : { s with idleW := 0, exitedW := s.exitedW + 0 } = s := by
      cases s
      simp_all
    rw [this]
    exact Relation.ReflTransGen.refl
  | succ n ih =>
    intro s hcl hch hn
    refine Relation.ReflTransGen.head (Step.exitClosed (s := s) (by omega) hcl hch) ?_
    have hrest := ih { s with idleW := s.idleW - 1, exitedW := s.exitedW + 1 }
      hcl hch (by simp [hn])
    have : { s with idleW := 0, exitedW := s.exitedW + 1 + n } =
        { s with idleW := 0, exitedW := s.exitedW + (n + 1) } := by
      cases s
      simp
      omega
    rw [this] at hrest
    exact hrest

/-- From any cancelled state, the n idle workers can all exit. -/
lemma reach_exit_all_cancel (env : String → ProbeOutcome) :
    ∀ (n : Nat) (s : RunState), s.cancelled = true →
      s.idleW = n → Reach env s { s with idleW := 0, exitedW := s.exitedW + n } := by
  intro n
  induction n with
  | zero =>
    intro s hc hn
    have : { s with idleW := 0, exitedW := s.exitedW + 0 } = s := by
      cases s
      simp_all
    rw [this]
    exact Relation.ReflTransGen.refl
  | succ n ih =>
    intro s hc hn
    refine Relation.ReflTransGen.head (Step.exitCancel (s := s) (by omega) hc) ?_
    have hrest := ih { s with idleW := s.idleW - 1, exitedW := s.exitedW + 1 }
      hc (by simp [hn])
    have : { s with idleW := 0, exitedW := s.exitedW + 1 + n } =
        { s with idleW := 0, exitedW := s.exitedW + (n + 1) } := by
      cases s
      simp
      omega
    rw [this] at hrest
    exact hrest

/-! ### The claims -/

/-- C1: for every URL in the backing store, after a collection run that
completes without being cancelled by the 30s deadline, the scrape's drain
pass leaves the gauge store with an entry for that URL whose value is either
a valid HTTP status code (when the network answered with one) or the
sentinel 0. -/
theorem claim_C1_gauge_complete (env : String → ProbeOutcome) (urls : List String)
    (s : RunState) (g : Gauge) (k : Nat)
    (hvalid : ∀ u c, env u = .response c → 100 ≤ c ∧ c ≤ 599)
    (hreach : Reach env (initState urls []) s)
    (hdone : runDone s) (hnc : s.cancelled = false) :
    ∀ u ∈ urls, ∃ v,
      lookupG u (metricsHandler g true s.metricsChan false k).2 = some v ∧
      (v = 0 ∨ (100 ≤ v ∧ v ≤ 599)) := by
  intro u hu
  obtain ⟨hcntEq, hvals⟩ := completed_run_chan hreach hdone hnc
  have hpos : 0 < cntM u s.metricsChan := by
    rw [hcntEq u]
    exact cnt_pos_of_mem hu
  have hlook : lookupG u (applyUpdates g s.metricsChan) = some (checkURL (env u)) := by
    refine lookupG_applyUpdates_uniform g hpos ?_
    intro m hm hmu
    rw [hvals m hm, hmu]
  refine ⟨checkURL (env u), ?_, ?_⟩
  · simpa [metricsHandler, updateMetrics] using hlook
  · cases henv : env u with
    | reqError => simp [checkURL]
    | doError => simp [checkURL]
    | response c =>
      right
      rw [checkURL]
      exact hvalid u c henv

/-- Network oracle used by the concrete runs below: every URL answers 200. -/
def envA : String → ProbeOutcome := fun _ => .response 200

/-- Final state of a concrete completed run over the single url "a". -/
def c1State : RunState :=
  { pending := [], urlChan := [], urlChanClosed := true,
    idleW := 0, probingW := [], sendingW := [], exitedW := 20,
    metricsChan := [⟨"a", 200⟩], cancelled := false }

/-- A concrete full interleaving: feed "a", close the queue, one worker
probes and sends, then all 20 workers exit. -/
lemma c1State_reachable : Reach envA (initState ["a"] []) c1State := by
  refine Relation.ReflTransGen.head
    (Step.feed "a" [] rfl rfl (by simp [initState, urlChanCap])) ?_
  refine Relation.ReflTransGen.head (Step.feedCloseNat rfl rfl) ?_
  refine Relation.ReflTransGen.head
    (Step.take "a" [] (by simp [initState, workerCount]) rfl) ?_
  refine Relation.ReflTransGen.head (Step.probeDone [] [] "a" rfl) ?_
  refine Relation.ReflTransGen.head
    (Step.send [] [] ⟨"a", checkURL (envA "a")⟩ rfl
      (by simp [initState, metricsChanCap])) ?_
  have h20 := reach_exit_all_closed envA 20
    { pending := [], urlChan := [], urlChanClosed := true,
      idleW := 20, probingW := [], sendingW := [], exitedW := 0,
      metricsChan := [⟨"a", checkURL (envA "a")⟩], cancelled := false }
    rfl rfl (by simp [initState, workerCount])
  simpa [c1State, envA, checkURL] using h20

/-- Witness for C1 at the concrete completed run on url "a". -/
theorem claim_C1_gauge_complete_witness :
    ∃ v, lookupG "a" (metricsHandler [] true c1State.metricsChan false 0).2 = some v ∧
      (v = 0 ∨ (100 ≤ v ∧ v ≤ 599)) :=
  claim_C1_gauge_complete envA ["a"] c1State [] 0
    (fun _ c h => by
      simp [envA] at h
      omega)
    c1State_reachable rfl rfl "a" (by simp)

/-- C2: a probe that fails in any way (request construction error, network
error, timeout, non-response) returns the sentinel 0 as an ordinary value:
checkURL is total, never an error, and the worker that ran it always
proceeds to forward the result into the pipeline, whatever the outcome. -/
theorem claim_C2_probe_failure_sentinel :
    (∀ o : ProbeOutcome, o = .reqError ∨ o = .doError → checkURL o = 0) ∧
    (∀ o : ProbeOutcome, checkURL o = 0 ∨ ∃ c, o = .response c ∧ checkURL o = c) ∧
    (∀ (env : String → ProbeOutcome) (s : RunState) (l1 l2 : List String) (u : String),
      s.probingW = l1 ++ u :: l2 →
      Step env s { s with probingW := l1 ++ l2,
                          sendingW := ⟨u, checkURL (env u)⟩ :: s.sendingW }) := by
  refine ⟨?_, ?_, ?_⟩
  · rintro o (rfl | rfl) <;> rfl
  · intro o
    cases o with
    | reqError => exact Or.inl rfl
    | doError => exact Or.inl rfl
    | response c => exact Or.inr ⟨c, rfl, rfl⟩
  · intro env s l1 l2 u h
    exact Step.probeDone l1 l2 u h

/-- A state with one worker inside checkURL on url "a". -/
def c2State : RunState :=
  { pending := [], urlChan := [], urlChanClosed := true,
    idleW := 19, probingW := ["a"], sendingW := [], exitedW := 0,
    metricsChan := [], cancelled := false }

/-- Witness for C2: both failure outcomes evaluate to 0, and the concrete
probing worker takes the forwarding step. -/
theorem claim_C2_probe_failure_sentinel_witness :
    checkURL .reqError = 0 ∧ checkURL .doError = 0 ∧
    Step envA c2State { c2State with probingW := [] ++ [],
                                     sendingW := ⟨"a", checkURL (envA "a")⟩ :: c2State.sendingW } :=
  ⟨claim_C2_probe_failure_sentinel.1 .reqError (Or.inl rfl),
   claim_C2_probe_failure_sentinel.1 .doError (Or.inr rfl),
   claim_C2_probe_failure_sentinel.2.2 envA c2State [] [] "a" rfl⟩

/-- C3: when the 30s deadline cancels a run whose bookmarks query had
succeeded, the scrape still succeeds: the handler serves exposition text
built from whatever the (partial) drain left in the gauge store, never an
error response. -/
theorem claim_C3_timeout_still_serves (env : String → ProbeOutcome)
    (urls : List String) (buf0 : List metricUpdate) (g : Gauge) (k : Nat)
    (s : RunState)
    (_hreach : Reach env (initState urls buf0) s)
    (_hdone : runDone s) (_ht : s.cancelled = true) :
    metricsHandler g true s.metricsChan true k =
      (.ok (renderGauge (applyUpdates g (s.metricsChan.take k))),
       applyUpdates g (s.metricsChan.take k)) := by
  simp [metricsHandler, updateMetrics]

/-- Final state of a concrete run cancelled before any probe finished. -/
def c3State : RunState :=
  { pending := [], urlChan := [], urlChanClosed := true,
    idleW := 0, probingW := [], sendingW := [], exitedW := 20,
    metricsChan := [], cancelled := true }

/-- Deadline fires immediately, the feeder aborts, all workers exit. -/
lemma c3State_reachable : Reach envA (initState ["a"] []) c3State := by
  refine Relation.ReflTransGen.head (Step.cancel (s := initState ["a"] []) rfl) ?_
  refine Relation.ReflTransGen.head (Step.feedCloseCancel rfl rfl) ?_
  have h20 := reach_exit_all_cancel envA 20
    { pending := [], urlChan := [], urlChanClosed := true,
      idleW := 20, probingW := [], sendingW := [], exitedW := 0,
      metricsChan := [], cancelled := true }
    rfl rfl
  simpa [c3State] using h20

/-- Witness for C3 at the concrete timed-out run. -/
theorem claim_C3_timeout_still_serves_witness :
    metricsHandler [] true c3State.metricsChan true 0 =
      (.ok (renderGauge (applyUpdates [] (c3State.metricsChan.take 0))),
       applyUpdates [] (c3State.metricsChan.take 0)) :=
  claim_C3_timeout_still_serves envA ["a"] [] [] 0 c3State c3State_reachable rfl rfl

/-- C4: if the bookmarks query of the run fails, the scrape answers 500 with
no exposition body and an untouched gauge store - and a scrape answers 500
exactly in that case. -/
theorem claim_C4_store_open_failure_only (g : Gauge) (buf : List metricUpdate)
    (c : Bool) (k : Nat) :
    metricsHandler g false buf c k = (.serverError, g) ∧
    (∀ qOk : Bool, (metricsHandler g qOk buf c k).1 = .serverError ↔ qOk = false) := by
  constructor
  · simp [metricsHandler]
  · intro qOk
    cases qOk <;> simp [metricsHandler]

/-- C6: a worker exits only because the URL queue is closed and drained or
because the cancellation signal fired; and once wg.Wait has returned
(the run is declared complete, before the drain pass starts) every worker
has actually finished. -/
theorem claim_C6_worker_exit_join (env : String → ProbeOutcome) :
    (∀ s s' : RunState, Step env s s' → s.exitedW < s'.exitedW →
      s.cancelled = true ∨ (s.urlChanClosed = true ∧ s.urlChan = [])) ∧
    (∀ (urls : List String) (buf0 : List metricUpdate) (s : RunState),
      Reach env (initState urls buf0) s → runDone s →
      s.idleW = 0 ∧ s.probingW = [] ∧ s.sendingW = []) := by
  constructor
  · intro s s' hstep hex
    cases hstep with
    | cancel h1 => exact absurd hex (Nat.lt_irrefl _)
    | feed u rest h1 h2 h3 => exact absurd hex (Nat.lt_irrefl _)
    | feedCloseNat h1 h2 => exact absurd hex (Nat.lt_irrefl _)
    | feedCloseCancel h1 h2 => exact absurd hex (Nat.lt_irrefl _)
    | take u rest h1 h2 => exact absurd hex (Nat.lt_irrefl _)
    | exitClosed h1 h2 h3 => exact Or.inr ⟨h2, h3⟩
    | exitCancel h1 h2 => exact Or.inl h2
    | probeDone l1 l2 u h1 => exact absurd hex (Nat.lt_irrefl _)
    | probeAborted l1 l2 u h1 h2 => exact absurd hex (Nat.lt_irrefl _)
    | send l1 l2 m h1 h2 => exact absurd hex (Nat.lt_irrefl _)
    | sendCancel l1 l2 m h1 h2 => exact Or.inl h2
  · intro urls buf0 s h hd
    exact runDone_components h hd

/-- A cancelled state with one idle worker left. -/
def c6State : RunState :=
  { pending := [], urlChan := [], urlChanClosed := true,
    idleW := 1, probingW := [], sendingW := [], exitedW := 19,
    metricsChan := [], cancelled := true }

/-- Witness for C6: a concrete exit step satisfies the exit condition, and
the concrete completed run has no unfinished worker. -/
theorem claim_C6_worker_exit_join_witness :
    (c6State.cancelled = true ∨ (c6State.urlChanClosed = true ∧ c6State.urlChan = [])) ∧
    (c1State.idleW = 0 ∧ c1State.probingW = [] ∧ c1State.sendingW = []) :=
  ⟨(claim_C6_worker_exit_join envA).1 c6State
      { c6State with idleW := c6State.idleW - 1, exitedW := c6State.exitedW + 1 }
      (Step.exitCancel (by decide) rfl) (by decide),
   (claim_C6_worker_exit_join envA).2 ["a"] [] c1State c1State_reachable rfl⟩

/-- C7: at any reachable instant of a collection run, the number of
simultaneously executing outbound probes is at most the fixed pool size
workerCount = 20, however many URLs the store returned. -/
theorem claim_C7_probe_bound (env : String → ProbeOutcome) (urls : List String)
    (buf0 : List metricUpdate) (s : RunState)
    (h : Reach env (initState urls buf0) s) :
    s.probingW.length ≤ workerCount ∧ workerCount = 20 := by
  have ht := totalW_reach h
  unfold totalW at ht
  exact ⟨by omega, rfl⟩

/-- Witness for C7 at the concrete completed run. -/
theorem claim_C7_probe_bound_witness :
    c1State.probingW.length ≤ workerCount ∧ workerCount = 20 :=
  claim_C7_probe_bound envA ["a"] [] c1State c1State_reachable

/-- Final state of a run over the duplicated stored sequence ["a", "a"]:
two ProbeResults for the same URL were produced and buffered. -/
def c5State : RunState :=
  { pending := [], urlChan := [], urlChanClosed := true,
    idleW := 0, probingW := [], sendingW := [], exitedW := 20,
    metricsChan := [⟨"a", 200⟩, ⟨"a", 200⟩], cancelled := false }

/-- Concrete interleaving producing both duplicate results. -/
lemma c5State_reachable : Reach envA (initState ["a", "a"] []) c5State := by
  refine Relation.ReflTransGen.head
    (Step.feed (s := initState ["a", "a"] []) "a" ["a"] rfl rfl
      (by simp [initState, urlChanCap])) ?_
  refine Relation.ReflTransGen.head
    (Step.feed "a" [] rfl rfl (by simp [initState, urlChanCap])) ?_
  refine Relation.ReflTransGen.head (Step.feedCloseNat rfl rfl) ?_
  refine Relation.ReflTransGen.head
    (Step.take "a" ["a"] (by simp [initState, workerCount]) rfl) ?_
  refine Relation.ReflTransGen.head
    (Step.take "a" [] (by simp [initState, workerCount]) rfl) ?_
  refine Relation.ReflTransGen.head
    (Step.probeDone [] ["a"] "a" rfl) ?_
  refine Relation.ReflTransGen.head
    (Step.send [] [] ⟨"a", checkURL (envA "a")⟩ rfl
      (by simp [initState, metricsChanCap])) ?_
  refine Relation.ReflTransGen.head
    (Step.probeDone [] [] "a" rfl) ?_
  refine Relation.ReflTransGen.head
    (Step.send [] [] ⟨"a", checkURL (envA "a")⟩ rfl
      (by simp [initState, metricsChanCap])) ?_
  have h20 := reach_exit_all_closed envA 20
    { pending := [], urlChan := [], urlChanClosed := true,
      idleW := 20, probingW := [], sendingW := [], exitedW := 0,
      metricsChan := [⟨"a", checkURL (envA "a")⟩, ⟨"a", checkURL (envA "a")⟩],
      cancelled := false }
    rfl rfl (by simp [workerCount])
  simpa [c5State, envA, checkURL] using h20

/-- C5 as stated is false: when the backing store yields the same URL twice
in one run, the run produces two ProbeResults for that (run, URL) pair. -/
theorem claim_C5_counterexample :
    Reach envA (initState ["a", "a"] []) c5State ∧ runDone c5State ∧
    cntM "a" c5State.metricsChan = 2 :=
  ⟨c5State_reachable, rfl, rfl⟩

/-- C5 (amended): within one run, at most one ProbeResult is produced per
occurrence of a URL in the stored sequence (per URL, at most its
multiplicity); and the gauge store holds at most one value per URL, the
last-applied update winning. -/
theorem claim_C5_per_url_results (env : String → ProbeOutcome) (urls : List String)
    (s : RunState) (h : Reach env (initState urls []) s) :
    (∀ u, cntM u s.metricsChan ≤ cnt u urls) ∧
    (∀ g : Gauge, (keysG g).Nodup → (keysG (applyUpdates g s.metricsChan)).Nodup) ∧
    (∀ (g : Gauge) (l : List metricUpdate) (u : String) (v : Nat),
      lookupG u (applyUpdates g (l ++ [⟨u, v⟩])) = some v) := by
  obtain ⟨_, hcnt, _⟩ := inv_reach h
  refine ⟨?_, ?_, ?_⟩
  · intro u
    have := hcnt u
    unfold inFlightCnt at this
    omega
  · intro g hg
    exact nodup_keysG_applyUpdates _ hg
  · intro g l u v
    exact lookupG_applyUpdates_last g l u v

/-- Witness for the amended C5 at the duplicate-producing run. -/
theorem claim_C5_per_url_results_witness :
    cntM "a" c5State.metricsChan ≤ cnt "a" ["a", "a"] ∧
    (keysG (applyUpdates [] c5State.metricsChan)).Nodup ∧
    lookupG "b" (applyUpdates [] ([⟨"b", 404⟩] ++ [⟨"b", 7⟩])) = some 7 :=
  ⟨(claim_C5_per_url_results envA ["a", "a"] c5State c5State_reachable).1 "a",
   (claim_C5_per_url_results envA ["a", "a"] c5State c5State_reachable).2.1 []
     List.nodup_nil,
   (claim_C5_per_url_results envA ["a", "a"] c5State c5State_reachable).2.2 []
     [⟨"b", 404⟩] "b" 7⟩

/-- C8 is false on the code: the only registered flags are -db, -port and
-user-agent; the pool size and the per-probe timeout are the fixed constants
20 and 5 seconds, with no configuration option to override them. -/
theorem claim_C8_counterexample :
    defaultFlags.map Prod.fst = ["db", "port", "user-agent"] ∧
    workerCount = 20 ∧ probeTimeoutSeconds = 5 :=
  ⟨rfl, rfl, rfl⟩

/-- C8 (amended): the identification header is an operator-overridable flag
(-user-agent, default "bookmarks-alive-exporter/1.0"), alongside -db and
-port; the worker-pool size and per-probe timeout are fixed at 20 and 5
time-units and are not configuration options. -/
theorem claim_C8_config_options :
    ("user-agent", "bookmarks-alive-exporter/1.0") ∈ defaultFlags ∧
    ("db", "./bookmarks.db") ∈ defaultFlags ∧
    ("port", "8000") ∈ defaultFlags ∧
    defaultFlags.length = 3 ∧
    workerCount = 20 ∧ probeTimeoutSeconds = 5 := by
  refine ⟨?_, ?_, ?_, rfl, rfl, rfl⟩ <;> simp [defaultFlags]

/-- State of a run on url "a" cancelled right before its worker's send: the
result was still delivered (the send select raced the ctx.Done case and
won), but the cancelled drain pass then stopped at once, leaving the result
buffered in the process-global metricsChan. -/
def c9s1 : RunState :=
  { pending := [], urlChan := [], urlChanClosed := true,
    idleW := 0, probingW := [], sendingW := [], exitedW := 20,
    metricsChan := [⟨"a", 200⟩], cancelled := true }

/-- The next scrape's run, over an empty store, started on the leftover
buffer. -/
def c9s2 : RunState :=
  { pending := [], urlChan := [], urlChanClosed := true,
    idleW := 0, probingW := [], sendingW := [], exitedW := 20,
    metricsChan := [⟨"a", 200⟩], cancelled := false }

lemma c9s1_reachable : Reach envA (initState ["a"] []) c9s1 := by
  refine Relation.ReflTransGen.head
    (Step.feed (s := initState ["a"] []) "a" [] rfl rfl
      (by simp [initState, urlChanCap])) ?_
  refine Relation.ReflTransGen.head (Step.feedCloseNat rfl rfl) ?_
  refine Relation.ReflTransGen.head
    (Step.take "a" [] (by simp [initState, workerCount]) rfl) ?_
  refine Relation.ReflTransGen.head
    (Step.probeDone [] [] "a" rfl) ?_
  refine Relation.ReflTransGen.head (Step.cancel rfl) ?_
  refine Relation.ReflTransGen.head
    (Step.send [] [] ⟨"a", checkURL (envA "a")⟩ rfl
      (by simp [initState, metricsChanCap])) ?_
  have h20 := reach_exit_all_cancel envA 20
    { pending := [], urlChan := [], urlChanClosed := true,
      idleW := 20, probingW := [], sendingW := [], exitedW := 0,
      metricsChan := [⟨"a", checkURL (envA "a")⟩], cancelled := true }
    rfl rfl
  simpa [c9s1, envA, checkURL] using h20

lemma c9s2_reachable : Reach envA (initState [] [⟨"a", 200⟩]) c9s2 := by
  refine Relation.ReflTransGen.head
    (Step.feedCloseNat (s := initState [] [⟨"a", 200⟩]) rfl rfl) ?_
  have h20 := reach_exit_all_closed envA 20
    { pending := [], urlChan := [], urlChanClosed := true,
      idleW := 20, probingW := [], sendingW := [], exitedW := 0,
      metricsChan := [⟨"a", 200⟩], cancelled := false }
    rfl rfl (by simp [workerCount])
  simpa [c9s2] using h20

/-- C9 is false on the code: the result channel is not per-run.  A run over
url "a" whose deadline fires is completed with its result still buffered in
the process-global metricsChan (the cancelled drain may apply nothing), and
the next scrape's run - over an empty store - completes and its drain pass
delivers that earlier run's result into the gauge store. -/
theorem claim_C9_counterexample :
    Reach envA (initState ["a"] []) c9s1 ∧ c9s1.cancelled = true ∧ runDone c9s1 ∧
    (updateMetrics true 0 [] c9s1.metricsChan).2 = [⟨"a", 200⟩] ∧
    Reach envA (initState [] c9s1.metricsChan) c9s2 ∧ runDone c9s2 ∧
    c9s2.cancelled = false ∧
    metricsHandler [] true c9s2.metricsChan false 0 =
      (.ok (renderGauge [("a", 200)]), [("a", 200)]) :=
  ⟨c9s1_reachable, rfl, rfl, rfl, c9s2_reachable, rfl, rfl, rfl⟩

/-- C9 (amended): every scrape allocates its own URL queue and worker set,
but the result channel is the single process-global metricsChan: anything an
earlier run left buffered stays at the front of the channel throughout the
new run and is applied first by that run's drain pass. -/
theorem claim_C9_global_result_channel (env : String → ProbeOutcome)
    (urls : List String) (buf0 : List metricUpdate) (s : RunState)
    (h : Reach env (initState urls buf0) s) :
    (initState urls buf0).urlChan = [] ∧
    (initState urls buf0).idleW = workerCount ∧
    (initState urls buf0).exitedW = 0 ∧
    (initState urls buf0).metricsChan = buf0 ∧
    (∃ rest, s.metricsChan = buf0 ++ rest ∧
      ∀ g : Gauge, applyUpdates g s.metricsChan =
        applyUpdates (applyUpdates g buf0) rest) := by
  refine ⟨rfl, rfl, rfl, rfl, ?_⟩
  obtain ⟨rest, hrest⟩ := metricsChan_reach h
  exact ⟨rest, hrest, fun g => by rw [hrest, applyUpdates_append]⟩

/-- Witness for the amended C9 at the leftover-consuming second run. -/
theorem claim_C9_global_result_channel_witness :
    (initState [] [⟨"a", 200⟩]).urlChan = [] ∧
    (initState [] [⟨"a", 200⟩]).idleW = workerCount ∧
    (initState [] [⟨"a", 200⟩]).exitedW = 0 ∧
    (initState [] [⟨"a", 200⟩]).metricsChan = [⟨"a", 200⟩] ∧
    (∃ rest, c9s2.metricsChan = [⟨"a", 200⟩] ++ rest ∧
      ∀ g : Gauge, applyUpdates g c9s2.metricsChan =
        applyUpdates (applyUpdates g [⟨"a", 200⟩]) rest) :=
  claim_C9_global_result_channel envA [] [⟨"a", 200⟩] c9s2 c9s2_reachable

/-- The gauge after a successful-query scrape is the old gauge with the
drained updates applied. -/
lemma handler_gauge_eq (g : Gauge) (buf : List metricUpdate) (c : Bool) (k : Nat) :
    (metricsHandler g true buf c k).2 =
      applyUpdates g (if c then buf.take k else buf) := by
  cases c <;> simp [metricsHandler, updateMetrics]

/-- C10: a URL whose status was once applied to the gauge store keeps a
series forever: every later scrape with a successful query exposes a line
for it carrying its last applied value (unchanged if the new run produced no
result for it, e.g. because the URL was removed from the backing store), and
the store update operation never deletes a series. -/
theorem claim_C10_series_persist (g : Gauge) (u : String) (v0 : Nat)
    (buf : List metricUpdate) (c : Bool) (k : Nat)
    (hset : lookupG u g = some v0) :
    (∃ v, lookupG u (metricsHandler g true buf c k).2 = some v ∧
      renderLine u v ∈ renderGauge (metricsHandler g true buf c k).2 ∧
      (metricsHandler g true buf c k).1 =
        .ok (renderGauge (metricsHandler g true buf c k).2) ∧
      ((∀ m ∈ buf, m.url ≠ u) → v = v0)) ∧
    (∀ (g2 : Gauge) (w x : String) (y : Nat),
      (lookupG w g2).isSome = true → (lookupG w (setVal g2 x y)).isSome = true) := by
  have hG := handler_gauge_eq g buf c k
  have hsome : (lookupG u (metricsHandler g true buf c k).2).isSome = true := by
    rw [hG]
    exact lookupG_applyUpdates_isSome g _ (by simp [hset])
  obtain ⟨v, hv⟩ := Option.isSome_iff_exists.mp hsome
  refine ⟨⟨v, hv, renderLine_mem_of_lookupG hv, by simp [metricsHandler], ?_⟩,
    fun g2 w x y hw => lookupG_setVal_isSome g2 x y hw⟩
  intro habs
  have habs2 : ∀ m ∈ (if c then buf.take k else buf), m.url ≠ u := by
    intro m hm
    apply habs
    cases c with
    | false => exact hm
    | true => exact List.take_subset _ _ (by simpa using hm)
  have hpres := lookupG_applyUpdates_absent g habs2
  rw [← hG, hv, hset] at hpres
  exact Option.some.inj hpres

/-- Witness for C10 on a one-series store and an empty drain. -/
theorem claim_C10_series_persist_witness :
    (∃ v, lookupG "a" (metricsHandler [("a", 200)] true [] false 0).2 = some v ∧
      renderLine "a" v ∈ renderGauge (metricsHandler [("a", 200)] true [] false 0).2 ∧
      (metricsHandler [("a", 200)] true [] false 0).1 =
        .ok (renderGauge (metricsHandler [("a", 200)] true [] false 0).2) ∧
      ((∀ m ∈ ([] : List metricUpdate), m.url ≠ "a") → v = 200)) ∧
    (∀ (g2 : Gauge) (w x : String) (y : Nat),
      (lookupG w g2).isSome = true → (lookupG w (setVal g2 x y)).isSome = true) :=
  claim_C10_series_persist [("a", 200)] "a" 200 [] false 0 rfl

end BookmarksAlive
